import Mathlib

/-! Verification development for a two-entity social-media storage layer
(posts and comments) with ownership-based authorization and
referential-integrity maintenance, shallowly embedded from the
TypeScript source in src/src/index.ts.

Modelling choices:
* a Principal identity token is modelled as a String (the source always
  compares principals through toString value equality);
* nat64 timestamps are modelled as Nat;
* a StableBTreeMap is modelled as an association list with
  get / insert (upsert) / remove / values, in namespace AList;
* each $update endpoint becomes a pure function from the pre-state (plus
  the values supplied by the external collaborators: caller identity,
  clock time, freshly generated uuid) to a Result paired with the
  post-state; each $query endpoint is a pure function of the state only,
  which is how the embedding records that queries never mutate;
* Result<T, string> becomes Except String T carrying the exact message
  strings of the source.
-/

namespace SocialMedia

/-- Association-list model of an Azle StableBTreeMap: lookup by key. -/
def AList.get {α : Type} (k : String) : List (String × α) → Option α
  | [] => none
  | (kv : String × α) :: rest => if kv.1 = k then some kv.2 else AList.get k rest

/-- Association-list model of StableBTreeMap.insert: upsert, replacing the
entry at the key when present and appending otherwise. -/
def AList.insert {α : Type} (k : String) (v : α) : List (String × α) → List (String × α)
  | [] => [(k, v)]
  | (kv : String × α) :: rest =>
    if kv.1 = k then (k, v) :: rest else kv :: AList.insert k v rest

/-- Association-list model of StableBTreeMap.remove: drops the (first)
entry at the key. -/
def AList.remove {α : Type} (k : String) : List (String × α) → List (String × α)
  | [] => []
  | (kv : String × α) :: rest => if kv.1 = k then rest else kv :: AList.remove k rest

/-- Association-list model of StableBTreeMap.values. -/
def AList.values {α : Type} (l : List (String × α)) : List α := l.map Prod.snd

/-- Keys of the store, used to state well-formedness. -/
def AList.keys {α : Type} (l : List (String × α)) : List String := l.map Prod.fst

/-- The Post record type of the source. -/
structure Post where
  id : String
  title : String
  body : String
  image : String
  owner : String
  likes : Nat
  createdAt : Nat
  updatedAt : Option Nat
  comments : List String
deriving DecidableEq, Repr

/-- The PostPayload record type of the source. -/
structure PostPayload where
  title : String
  body : String
  image : String
deriving DecidableEq, Repr

/-- The Comment record type of the source. -/
structure Comment where
  id : String
  content : String
  sender : String
  postId : String
deriving DecidableEq, Repr

/-- The CommentPayload record type of the source. -/
structure CommentPayload where
  content : String
  postId : String
deriving DecidableEq, Repr

/-- The combined contents of the two StableBTreeMaps, postStorage and
commentStorage. -/
structure State where
  posts : List (String × Post)
  comments : List (String × Comment)
deriving DecidableEq, Repr

/-- Error message of getPost, likePost, getCommentsOnPost and
commentOnPost for a missing post. -/
def postNotFoundMsg (id : String) : String :=
  "A post with id=" ++ id ++ " was not found."

/-- NotFound error message of updatePost. -/
def updateNotFoundMsg (id : String) : String :=
  "Couldn't update a post with id=" ++ id ++ ". Post not found."

/-- Forbidden error message of updatePost. -/
def updateForbiddenMsg : String :=
  "You do not have permission to update this post."

/-- NotFound error message of deleteComment. -/
def deleteCommentNotFoundMsg (id : String) : String :=
  "Couldn't delete a comment with id=" ++ id ++ ". Comment not found."

/-- Forbidden error message of deleteComment. -/
def deleteCommentForbiddenMsg : String :=
  "You do not have permission to delete this comment."

/-- NotFound error message of deletePost. -/
def deletePostNotFoundMsg (id : String) : String :=
  "Couldn't delete a post with id=" ++ id ++ ". Post not found."

/-- Forbidden error message of deletePost. -/
def deletePostForbiddenMsg : String :=
  "You do not have permission to delete this post."

/-- getPosts: returns all posts (a $query, hence no state output). -/
def getPosts (s : State) : Except String (List Post) :=
  .ok (AList.values s.posts)

/-- getPost: returns the post at the id or a NotFound error. -/
def getPost (s : State) (id : String) : Except String Post :=
  match AList.get id s.posts with
  | some post => .ok post
  | none => .error (postNotFoundMsg id)

/-- createPost: builds the new post from the caller identity, clock time
and fresh uuid, inserts it into postStorage and returns it. The payload
spread comes after the generated fields in the source, so title, body and
image are taken from the payload. -/
def createPost (caller : String) (time : Nat) (newId : String)
    (s : State) (payload : PostPayload) : Except String Post × State :=
  let post : Post :=
    { id := newId, createdAt := time, updatedAt := none, owner := caller,
      likes := 0, comments := [],
      title := payload.title, body := payload.body, image := payload.image }
  (.ok post, { s with posts := AList.insert post.id post s.posts })

/-- updatePost: NotFound when the id is absent, Forbidden when the caller
is not the owner, otherwise overlays the payload, stamps updatedAt and
re-inserts at post.id. -/
def updatePost (caller : String) (time : Nat) (s : State)
    (id : String) (payload : PostPayload) : Except String Post × State :=
  match AList.get id s.posts with
  | some post =>
    if post.owner ≠ caller then
      (.error updateForbiddenMsg, s)
    else
      let updatedPost : Post :=
        { post with title := payload.title, body := payload.body,
                    image := payload.image, updatedAt := some time }
      (.ok updatedPost, { s with posts := AList.insert post.id updatedPost s.posts })
  | none => (.error (updateNotFoundMsg id), s)

/-- likePost: NotFound when the id is absent, otherwise increments likes
and re-inserts at post.id. No ownership check. -/
def likePost (s : State) (postId : String) : Except String Post × State :=
  match AList.get postId s.posts with
  | some post =>
    let liked : Post := { post with likes := post.likes + 1 }
    (.ok liked, { s with posts := AList.insert liked.id liked s.posts })
  | none => (.error (postNotFoundMsg postId), s)

/-- The comment-collection loop of getCommentsOnPost: walks the post's
comment-id sequence in order, pushing each id that resolves in
commentStorage and skipping each one that does not. -/
def collectComments (store : List (String × Comment)) : List String → List Comment
  | [] => []
  | cid :: rest =>
    match AList.get cid store with
    | some c => c :: collectComments store rest
    | none => collectComments store rest

/-- getCommentsOnPost: NotFound when the post is absent, otherwise the
resolved comments of its sequence (a $query, hence no state output). -/
def getCommentsOnPost (s : State) (postId : String) : Except String (List Comment) :=
  match AList.get postId s.posts with
  | some post => .ok (collectComments s.comments post.comments)
  | none => .error (postNotFoundMsg postId)

/-- commentOnPost: NotFound when the post is absent; otherwise builds the
comment from the fresh uuid and caller identity, appends its id to the
post's comments, inserts the comment into commentStorage and re-inserts
the post into postStorage. -/
def commentOnPost (caller : String) (newId : String) (s : State)
    (payload : CommentPayload) : Except String Comment × State :=
  match AList.get payload.postId s.posts with
  | some post =>
    let comment : Comment :=
      { id := newId, sender := caller,
        content := payload.content, postId := payload.postId }
    let post2 : Post := { post with comments := post.comments ++ [comment.id] }
    (.ok comment,
      { posts := AList.insert post2.id post2 s.posts,
        comments := AList.insert comment.id comment s.comments })
  | none => (.error (postNotFoundMsg payload.postId), s)

/-- Removal of the first occurrence, the effect of the source's
indexOf/splice pair on the fetched post's comments array. -/
def removeFirst (x : String) : List String → List String
  | [] => []
  | y :: rest => if y = x then rest else y :: removeFirst x rest

/-- deleteComment: NotFound when the id is absent, Forbidden when the
caller is not the sender. Otherwise the source fetches the owning post
(a deserialized copy), splices the comment id out of that copy's comments
array, but never re-inserts the post into postStorage; the spliced copy
is therefore dropped, which the embedding records with the discarded let
binding. Finally the comment is removed from commentStorage. -/
def deleteComment (caller : String) (s : State) (id : String) :
    Except String Comment × State :=
  match AList.get id s.comments with
  | some comment =>
    if comment.sender ≠ caller then
      (.error deleteCommentForbiddenMsg, s)
    else
      let _splicedCopy : Option Post :=
        match AList.get comment.postId s.posts with
        | some post => some { post with comments := removeFirst id post.comments }
        | none => none
      (.ok comment, { s with comments := AList.remove id s.comments })
  | none => (.error (deleteCommentNotFoundMsg id), s)

/-- The cascade loop of deletePost: iterates over a snapshot of
commentStorage.values(), removing from the store each comment whose
postId matches the deleted post. -/
def removeMatching (id : String) :
    List Comment → List (String × Comment) → List (String × Comment)
  | [], store => store
  | c :: rest, store =>
    removeMatching id rest (if c.postId = id then AList.remove c.id store else store)

/-- deletePost: NotFound when the id is absent, Forbidden when the caller
is not the owner. Otherwise removes every comment whose postId matches by
a full scan of commentStorage, removes the post and returns the
pre-deletion snapshot. -/
def deletePost (caller : String) (s : State) (id : String) :
    Except String Post × State :=
  match AList.get id s.posts with
  | some post =>
    if post.owner ≠ caller then
      (.error deletePostForbiddenMsg, s)
    else
      (.ok post,
        { posts := AList.remove id s.posts,
          comments := removeMatching id (AList.values s.comments) s.comments })
  | none => (.error (deletePostNotFoundMsg id), s)

/-- The nine public endpoints, as one sum type for statements that range
over every operation. -/
inductive Op where
  | listAll : Op
  | getOne (id : String) : Op
  | create (payload : PostPayload) : Op
  | update (id : String) (payload : PostPayload) : Op
  | like (postId : String) : Op
  | listComments (postId : String) : Op
  | comment (payload : CommentPayload) : Op
  | delComment (id : String) : Op
  | delPost (id : String) : Op
deriving DecidableEq, Repr

/-- The state after running one operation (queries leave it unchanged,
which is structural: $query endpoints cannot write). -/
def stepState (caller : String) (time : Nat) (newId : String) (s : State) : Op → State
  | .listAll => s
  | .getOne _ => s
  | .create payload => (createPost caller time newId s payload).2
  | .update id payload => (updatePost caller time s id payload).2
  | .like postId => (likePost s postId).2
  | .listComments _ => s
  | .comment payload => (commentOnPost caller newId s payload).2
  | .delComment id => (deleteComment caller s id).2
  | .delPost id => (deletePost caller s id).2

/-- Whether a Result is a success. -/
def resultOk {ε α : Type} : Except ε α → Bool
  | .ok _ => true
  | .error _ => false

/-- Whether one operation returns an error on the given state. -/
def stepFails (caller : String) (time : Nat) (newId : String) (s : State) : Op → Bool
  | .listAll => !resultOk (getPosts s)
  | .getOne id => !resultOk (getPost s id)
  | .create payload => !resultOk (createPost caller time newId s payload).1
  | .update id payload => !resultOk (updatePost caller time s id payload).1
  | .like postId => !resultOk (likePost s postId).1
  | .listComments postId => !resultOk (getCommentsOnPost s postId)
  | .comment payload => !resultOk (commentOnPost caller newId s payload).1
  | .delComment id => !resultOk (deleteComment caller s id).1
  | .delPost id => !resultOk (deletePost caller s id).1

/-- N sequential likePost calls on the same post id, the iteration of the
testable property about repeated likes. -/
def iterLike (postId : String) : Nat → State → State
  | 0, s => s
  | n + 1, s => iterLike postId n (likePost s postId).2

/-- Whether the operation is the like endpoint, used to state that only
likePost ever changes a stored likes counter. -/
def Op.isLike : Op → Bool
  | .like _ => true
  | _ => false

/-- Well-formedness of a store: every entry is keyed by its record's own
id field and keys are duplicate-free. Both hold of every state reachable
through the endpoints, which always insert a record at its id. -/
def WFStore {α : Type} (idOf : α → String) (l : List (String × α)) : Prop :=
  (∀ kv ∈ l, kv.1 = idOf kv.2) ∧ (AList.keys l).Nodup

/-- Well-formedness of the combined state. -/
def State.WF (s : State) : Prop :=
  WFStore Post.id s.posts ∧ WFStore Comment.id s.comments

instance {α : Type} (idOf : α → String) (l : List (String × α)) :
    Decidable (WFStore idOf l) := by
  unfold WFStore; infer_instance

instance (s : State) : Decidable s.WF := by
  unfold State.WF; infer_instance

/-- Concrete post used in the deleteComment scenarios: owned by alice,
with the single comment c1 in its sequence. -/
def pA : Post :=
  { id := "p1", title := "t", body := "b", image := "i", owner := "alice",
    likes := 0, createdAt := 0, updatedAt := none, comments := ["c1"] }

/-- Concrete comment used in the deleteComment scenarios: sent by alice
on post p1. -/
def cA : Comment := { id := "c1", content := "hi", sender := "alice", postId := "p1" }

/-- Concrete state holding pA and cA. -/
def sA : State := { posts := [("p1", pA)], comments := [("c1", cA)] }

/-- Concrete post owned by bob with two likes, used in authorization
scenarios where alice is the caller. -/
def pB : Post :=
  { id := "p2", title := "t2", body := "b2", image := "i2", owner := "bob",
    likes := 2, createdAt := 5, updatedAt := none, comments := [] }

/-- Concrete comment sent by bob, used in authorization scenarios. -/
def cB : Comment := { id := "c2", content := "yo", sender := "bob", postId := "p2" }

/-- Concrete state holding pB and cB. -/
def sB : State := { posts := [("p2", pB)], comments := [("c2", cB)] }

theorem AList.get_insert_self {α : Type} (k : String) (v : α) (l : List (String × α)) :
    AList.get k (AList.insert k v l) = some v := by
  induction l with
  | nil => simp [AList.insert, AList.get]
  | cons kv rest ih =>
    by_cases h : kv.1 = k
    · simp [AList.insert, h, AList.get]
    · simp [AList.insert, h, AList.get, ih]

theorem AList.get_insert_ne {α : Type} {q k : String} (v : α) (l : List (String × α))
    (h : q ≠ k) : AList.get q (AList.insert k v l) = AList.get q l := by
  have hkq : ¬ k = q := fun e => h e.symm
  induction l with
  | nil => simp [AList.insert, AList.get, hkq]
  | cons kv rest ih =>
    by_cases hk : kv.1 = k
    · have hq : ¬ kv.1 = q := by rw [hk]; exact hkq
      simp [AList.insert, AList.get, hk, hq, hkq]
    · by_cases hq : kv.1 = q
      · simp [AList.insert, AList.get, hk, hq, hkq, h, ih]
      · simp [AList.insert, AList.get, hk, hq, ih]

theorem AList.get_remove_ne {α : Type} {q k : String} (l : List (String × α))
    (h : q ≠ k) : AList.get q (AList.remove k l) = AList.get q l := by
  have hkq : ¬ k = q := fun e => h e.symm
  induction l with
  | nil => simp [AList.remove]
  | cons kv rest ih =>
    by_cases hk : kv.1 = k
    · have hq : ¬ kv.1 = q := by rw [hk]; exact hkq
      simp [AList.remove, AList.get, hk, hq, hkq]
    · by_cases hq : kv.1 = q
      · simp [AList.remove, AList.get, hk, hq, hkq, h]
      · simp [AList.remove, AList.get, hk, hq, ih]

theorem AList.get_eq_none {α : Type} {k : String} {l : List (String × α)}
    (h : k ∉ AList.keys l) : AList.get k l = none := by
  induction l with
  | nil => simp [AList.get]
  | cons kv rest ih =>
    simp only [AList.keys, List.map_cons, List.mem_cons, not_or] at h
    have hk : ¬ kv.1 = k := fun e => h.1 e.symm
    have hrest : AList.get k rest = none := ih (by simpa [AList.keys] using h.2)
    simp [AList.get, hk, hrest]

theorem AList.not_mem_keys_remove {α : Type} {k : String} {l : List (String × α)}
    (h : (AList.keys l).Nodup) : k ∉ AList.keys (AList.remove k l) := by
  induction l with
  | nil => simp [AList.remove, AList.keys]
  | cons kv rest ih =>
    simp only [AList.keys, List.map_cons, List.nodup_cons] at h
    obtain ⟨h1, h2⟩ := h
    by_cases hk : kv.1 = k
    · subst hk
      intro hmem
      exact h1 (by simpa [AList.remove, AList.keys] using hmem)
    · intro hmem
      have hrest : k ∉ AList.keys (AList.remove k rest) := ih h2
      simp only [AList.remove, if_neg hk, AList.keys, List.map_cons,
        List.mem_cons] at hmem
      rcases hmem with he | he
      · exact hk he.symm
      · exact hrest he

theorem AList.get_remove_self {α : Type} {k : String} {l : List (String × α)}
    (h : (AList.keys l).Nodup) : AList.get k (AList.remove k l) = none :=
  AList.get_eq_none (AList.not_mem_keys_remove h)

theorem AList.mem_remove {α : Type} {k : String} {kv : String × α}
    {l : List (String × α)} (h : kv ∈ AList.remove k l) : kv ∈ l := by
  induction l with
  | nil => simp [AList.remove] at h
  | cons a rest ih =>
    by_cases hk : a.1 = k
    · simp only [AList.remove, if_pos hk] at h
      exact List.mem_cons_of_mem a h
    · simp only [AList.remove, if_neg hk, List.mem_cons] at h
      rcases h with h | h
      · exact h ▸ List.mem_cons_self a rest
      · exact List.mem_cons_of_mem a (ih h)

theorem AList.mem_remove_of_ne_key {α : Type} {k : String} {kv : String × α}
    {l : List (String × α)} (h : kv ∈ l) (hne : kv.1 ≠ k) :
    kv ∈ AList.remove k l := by
  induction l with
  | nil => simp at h
  | cons a rest ih =>
    by_cases hk : a.1 = k
    · simp only [AList.remove, if_pos hk]
      rcases List.mem_cons.mp h with h | h
      · exact absurd (h ▸ hk) hne
      · exact h
    · simp only [AList.remove, if_neg hk, List.mem_cons]
      rcases List.mem_cons.mp h with h | h
      · exact Or.inl h
      · exact Or.inr (ih h)

theorem AList.keys_remove_sublist {α : Type} (k : String) (l : List (String × α)) :
    List.Sublist (AList.keys (AList.remove k l)) (AList.keys l) := by
  induction l with
  | nil => simp [AList.remove, AList.keys]
  | cons a rest ih =>
    by_cases hk : a.1 = k
    · simp only [AList.remove, if_pos hk, AList.keys, List.map_cons]
      exact List.Sublist.cons a.1 (List.Sublist.refl _)
    · simp only [AList.remove, if_neg hk, AList.keys, List.map_cons]
      exact List.Sublist.cons₂ a.1 ih

theorem AList.nodup_keys_remove {α : Type} {k : String} {l : List (String × α)}
    (h : (AList.keys l).Nodup) : (AList.keys (AList.remove k l)).Nodup :=
  h.sublist (AList.keys_remove_sublist k l)

theorem AList.get_mem {α : Type} {k : String} {v : α} {l : List (String × α)}
    (h : AList.get k l = some v) : (k, v) ∈ l := by
  induction l with
  | nil => simp [AList.get] at h
  | cons kv rest ih =>
    by_cases hk : kv.1 = k
    · simp only [AList.get, if_pos hk, Option.some.injEq] at h
      subst hk; subst h
      exact List.mem_cons_self kv rest
    · simp only [AList.get, if_neg hk] at h
      exact List.mem_cons_of_mem kv (ih h)

theorem AList.mem_keys_of_get {α : Type} {k : String} {v : α} {l : List (String × α)}
    (h : AList.get k l = some v) : k ∈ AList.keys l := by
  have := AList.get_mem h
  exact List.mem_map.mpr ⟨(k, v), this, rfl⟩

theorem WFStore.id_of_get {α : Type} {idOf : α → String} {l : List (String × α)}
    {k : String} {v : α} (hwf : WFStore idOf l) (h : AList.get k l = some v) :
    idOf v = k := by
  have hm := AList.get_mem h
  exact (hwf.1 (k, v) hm).symm

theorem AList.eq_of_mem_of_keys_nodup {α : Type} {l : List (String × α)}
    (h : (AList.keys l).Nodup) {a b : String × α} (ha : a ∈ l) (hb : b ∈ l)
    (hk : a.1 = b.1) : a = b := by
  induction l with
  | nil => simp at ha
  | cons c rest ih =>
    simp only [AList.keys, List.map_cons, List.nodup_cons] at h
    have hnot : c.1 ∉ List.map Prod.fst rest := h.1
    rcases List.mem_cons.mp ha with ha1 | ha1 <;>
      rcases List.mem_cons.mp hb with hb1 | hb1
    · rw [ha1, hb1]
    · exfalso
      apply hnot
      rw [← ha1, hk]
      exact List.mem_map.mpr ⟨b, hb1, rfl⟩
    · exfalso
      apply hnot
      rw [← hb1, ← hk]
      exact List.mem_map.mpr ⟨a, ha1, rfl⟩
    · exact ih h.2 ha1 hb1

theorem removeMatching_subset (id : String) :
    ∀ (vals : List Comment) (store : List (String × Comment)) (q : String × Comment),
      q ∈ removeMatching id vals store → q ∈ store := by
  intro vals
  induction vals with
  | nil =>
    intro store q h
    simpa [removeMatching] using h
  | cons c rest ih =>
    intro store q h
    simp only [removeMatching] at h
    by_cases hc : c.postId = id
    · rw [if_pos hc] at h
      exact AList.mem_remove (ih _ _ h)
    · rw [if_neg hc] at h
      exact ih _ _ h

theorem removeMatching_purges (id : String) :
    ∀ (vals : List Comment) (store : List (String × Comment)),
      (∀ kv ∈ store, kv.1 = kv.2.id) → (AList.keys store).Nodup →
      (∀ kv ∈ store, kv.2.postId = id → kv.2 ∈ vals) →
      ∀ q ∈ removeMatching id vals store, q.2.postId ≠ id := by
  intro vals
  induction vals with
  | nil =>
    intro store _ _ hcover q hq hpid
    simp only [removeMatching] at hq
    exact absurd (hcover q hq hpid) (List.not_mem_nil _)
  | cons c rest ih =>
    intro store hwf hnd hcover q hq
    simp only [removeMatching] at hq
    by_cases hc : c.postId = id
    · rw [if_pos hc] at hq
      refine ih (AList.remove c.id store)
        (fun kv hkv => hwf kv (AList.mem_remove hkv))
        (AList.nodup_keys_remove hnd) ?_ q hq
      intro kv hkv hpid
      have hkv0 : kv ∈ store := AList.mem_remove hkv
      rcases List.mem_cons.mp (hcover kv hkv0 hpid) with he | he
      · exfalso
        have hkey : kv.1 = c.id := by rw [hwf kv hkv0, he]
        have hmem : kv.1 ∈ AList.keys (AList.remove c.id store) :=
          List.mem_map.mpr ⟨kv, hkv, rfl⟩
        rw [hkey] at hmem
        exact AList.not_mem_keys_remove hnd hmem
      · exact he
    · rw [if_neg hc] at hq
      refine ih store hwf hnd ?_ q hq
      intro kv hkv hpid
      rcases List.mem_cons.mp (hcover kv hkv hpid) with he | he
      · exact absurd (he ▸ hpid) hc
      · exact he

theorem removeMatching_keeps (id : String) :
    ∀ (vals : List Comment) (store : List (String × Comment)) (q : String × Comment),
      q ∈ store → (∀ c ∈ vals, c.postId = id → c.id ≠ q.1) →
      q ∈ removeMatching id vals store := by
  intro vals
  induction vals with
  | nil =>
    intro store q hq _
    simpa [removeMatching] using hq
  | cons c rest ih =>
    intro store q hq hsafe
    simp only [removeMatching]
    by_cases hc : c.postId = id
    · rw [if_pos hc]
      refine ih _ q ?_ ?_
      · exact AList.mem_remove_of_ne_key hq
          (fun e => hsafe c (List.mem_cons_self c rest) hc e.symm)
      · intro d hd hdp
        exact hsafe d (List.mem_cons_of_mem c hd) hdp
    · rw [if_neg hc]
      exact ih _ q hq (fun d hd hdp => hsafe d (List.mem_cons_of_mem c hd) hdp)

theorem collectComments_eq_filterMap (store : List (String × Comment)) (ids : List String) :
    collectComments store ids = ids.filterMap (fun cid => AList.get cid store) := by
  induction ids with
  | nil => simp [collectComments]
  | cons d rest ih =>
    cases hd : AList.get d store with
    | none => simp [collectComments, hd, List.filterMap_cons, ih]
    | some x => simp [collectComments, hd, List.filterMap_cons, ih]

theorem mem_collectComments {store : List (String × Comment)} {ids : List String}
    {cid : String} {c : Comment} (hmem : cid ∈ ids)
    (hres : AList.get cid store = some c) : c ∈ collectComments store ids := by
  induction ids with
  | nil => simp at hmem
  | cons d rest ih =>
    rcases List.mem_cons.mp hmem with he | he
    · subst he
      simp [collectComments, hres]
    · cases hd : AList.get d store with
      | none =>
        simp only [collectComments, hd]
        exact ih he
      | some x =>
        simp only [collectComments, hd]
        exact List.mem_cons_of_mem x (ih he)

theorem deleteComment_posts_frame (caller : String) (s : State) (id : String) :
    ((deleteComment caller s id).2).posts = s.posts := by
  simp only [deleteComment]
  cases hg : AList.get id s.comments with
  | none => rfl
  | some comment =>
    by_cases hs : comment.sender ≠ caller
    · simp [hs]
    · simp [hs]

theorem get_some_unique {α : Type} {l : List (String × α)} {k : String} {a b : α}
    (h1 : AList.get k l = some a) (h2 : AList.get k l = some b) : a = b := by
  rw [h1] at h2
  exact Option.some_inj.mp h2

/-- C1: the claim states that deleteComment by the sender removes the
comment from the comment store AND that, when the owning post still
exists, the post record stored at its id afterwards has the comment id
removed from its comments sequence, the updated post being persisted.
The code violates the second half: deleteComment splices only the
deserialized copy fetched from postStorage and never calls
postStorage.insert, so the stored post is untouched. Evaluated at the
concrete failing input (state sA: post p1 owned by alice whose sequence
is exactly the id c1; comment c1 sent by alice; caller alice), the call
succeeds and removes c1 from the comment store, yet the stored post at
p1 is still the original pA whose comments sequence still lists c1. The
spec's own intent (the quoted sentences and the testable property about
deleteComment) together with the source comment on the splice line make
this a slip in the code rather than in the spec. -/
theorem c1_deleteComment_post_sequence_not_updated :
    (deleteComment "alice" sA "c1").1 = Except.ok cA
    ∧ AList.get "c1" ((deleteComment "alice" sA "c1").2).comments = none
    ∧ AList.get "p1" ((deleteComment "alice" sA "c1").2).posts = some pA
    ∧ pA.comments = ["c1"] :=
  ⟨rfl, rfl, rfl, rfl⟩

/-- C2: a deleteComment call (successful or not) leaves every record in
the post store unchanged, because the source only splices the in-memory
copy obtained from get and never writes the post back; in particular the
owning post's stored comments sequence still contains the deleted
comment's id afterwards. -/
theorem c2_deleteComment_never_writes_post_store (caller id : String) (s : State) :
    ((deleteComment caller s id).2).posts = s.posts :=
  deleteComment_posts_frame caller s id

/-- C5: for updatePost, deleteComment and deletePost, a missing target id
yields the NotFound error no matter who the caller is (existence is
checked before ownership), and an existing target whose recorded
owner/sender differs from the caller by value equality yields the
Forbidden error with the state completely unchanged. -/
theorem c5_not_found_precedes_forbidden (caller : String) (time : Nat) (s : State)
    (pid0 cid0 pid1 cid1 : String) (p : Post) (c : Comment) (payload : PostPayload)
    (hp0 : AList.get pid0 s.posts = none)
    (hc0 : AList.get cid0 s.comments = none)
    (hp1 : AList.get pid1 s.posts = some p) (hpo : p.owner ≠ caller)
    (hc1 : AList.get cid1 s.comments = some c) (hcs : c.sender ≠ caller) :
    updatePost caller time s pid0 payload = (.error (updateNotFoundMsg pid0), s)
    ∧ deletePost caller s pid0 = (.error (deletePostNotFoundMsg pid0), s)
    ∧ deleteComment caller s cid0 = (.error (deleteCommentNotFoundMsg cid0), s)
    ∧ updatePost caller time s pid1 payload = (.error updateForbiddenMsg, s)
    ∧ deletePost caller s pid1 = (.error deletePostForbiddenMsg, s)
    ∧ deleteComment caller s cid1 = (.error deleteCommentForbiddenMsg, s) := by
  refine ⟨?_, ?_, ?_, ?_, ?_, ?_⟩
  · simp [updatePost, hp0]
  · simp [deletePost, hp0]
  · simp [deleteComment, hc0]
  · simp [updatePost, hp1, hpo]
  · simp [deletePost, hp1, hpo]
  · simp [deleteComment, hc1, hcs]

/-- Witness for C5 at a concrete input: caller alice against the state sB
whose post p2 is owned by bob and whose comment c2 was sent by bob, with
np and nc absent from the stores. -/
theorem c5_witness :
    (AList.get "np" sB.posts = none ∧ AList.get "nc" sB.comments = none
      ∧ AList.get "p2" sB.posts = some pB ∧ pB.owner ≠ "alice"
      ∧ AList.get "c2" sB.comments = some cB ∧ cB.sender ≠ "alice")
    ∧ updatePost "alice" 9 sB "np" ⟨"x", "y", "z"⟩ = (.error (updateNotFoundMsg "np"), sB)
    ∧ deletePost "alice" sB "np" = (.error (deletePostNotFoundMsg "np"), sB)
    ∧ deleteComment "alice" sB "nc" = (.error (deleteCommentNotFoundMsg "nc"), sB)
    ∧ updatePost "alice" 9 sB "p2" ⟨"x", "y", "z"⟩ = (.error updateForbiddenMsg, sB)
    ∧ deletePost "alice" sB "p2" = (.error deletePostForbiddenMsg, sB)
    ∧ deleteComment "alice" sB "c2" = (.error deleteCommentForbiddenMsg, sB) := by
  have h := c5_not_found_precedes_forbidden "alice" 9 sB "np" "nc" "p2" "c2" pB cB
    ⟨"x", "y", "z"⟩ (by decide) (by decide) (by decide) (by decide) (by decide) (by decide)
  exact ⟨⟨by decide, by decide, by decide, by decide, by decide, by decide⟩,
    h.1, h.2.1, h.2.2.1, h.2.2.2.1, h.2.2.2.2.1, h.2.2.2.2.2⟩

/-- C7: getCommentsOnPost (the listCommentsForPost endpoint) fails with
the NotFound error when the post id does not resolve, and otherwise
returns, in sequence order, exactly the comment records obtained by
resolving each id of the post's comments sequence against the comment
store, silently dropping unresolvable ids: the source's collection loop
equals the filterMap of store resolution. Being a $query, the embedding
gives it no state output at all, which records that it mutates neither
store. -/
theorem c7_getCommentsOnPost_resolves_sequence (s : State) (pid0 pid1 : String)
    (p : Post)
    (h0 : AList.get pid0 s.posts = none)
    (h1 : AList.get pid1 s.posts = some p) :
    getCommentsOnPost s pid0 = .error (postNotFoundMsg pid0)
    ∧ getCommentsOnPost s pid1 =
        .ok (p.comments.filterMap (fun cid => AList.get cid s.comments)) := by
  constructor
  · simp [getCommentsOnPost, h0]
  · simp [getCommentsOnPost, h1, collectComments_eq_filterMap]

/-- Witness for C7 at a concrete input: in sA the id zz resolves to no
post and p1 resolves to pA, whose single listed comment c1 resolves. -/
theorem c7_witness :
    (AList.get "zz" sA.posts = none ∧ AList.get "p1" sA.posts = some pA)
    ∧ getCommentsOnPost sA "zz" = .error (postNotFoundMsg "zz")
    ∧ getCommentsOnPost sA "p1" =
        .ok (pA.comments.filterMap (fun cid => AList.get cid sA.comments)) := by
  have h := c7_getCommentsOnPost_resolves_sequence sA "zz" "p1" pA (by decide) (by decide)
  exact ⟨⟨by decide, by decide⟩, h.1, h.2⟩

/-- C8: createPost always succeeds and returns a post record carrying the
freshly generated id, likes 0, empty comments, absent updatedAt, the
caller as owner, the clock value as createdAt and the payload's title,
body and image; getPost on the new id immediately afterwards returns the
very same record. -/
theorem c8_createPost_then_getPost (caller : String) (time : Nat) (newId : String)
    (s : State) (payload : PostPayload) :
    ∃ p : Post, (createPost caller time newId s payload).1 = .ok p
      ∧ p.id = newId ∧ p.likes = 0 ∧ p.comments = [] ∧ p.updatedAt = none
      ∧ p.owner = caller ∧ p.createdAt = time
      ∧ p.title = payload.title ∧ p.body = payload.body ∧ p.image = payload.image
      ∧ getPost (createPost caller time newId s payload).2 newId = .ok p := by
  refine ⟨_, rfl, rfl, rfl, rfl, rfl, rfl, rfl, rfl, rfl, rfl, ?_⟩
  simp [createPost, getPost, AList.get_insert_self]

/-- C3: deletePost by the owner succeeds, returns the pre-deletion
snapshot of the post (its comments field as stored at deletion time),
removes the post from the post store, and removes from the comment store
exactly the comments whose postId equals the deleted id: afterwards no
such comment remains (a full scan, covering comments never listed in the
post's own sequence), while every other comment entry survives. The
well-formedness hypothesis (entries keyed by their record's id,
duplicate-free keys) holds of every store state the endpoints build. -/
theorem c3_deletePost_cascades (caller : String) (s : State) (p : Post)
    (hwf : s.WF) (hget : AList.get p.id s.posts = some p) (hown : p.owner = caller) :
    (deletePost caller s p.id).1 = .ok p
    ∧ AList.get p.id ((deletePost caller s p.id).2).posts = none
    ∧ (∀ c ∈ AList.values ((deletePost caller s p.id).2).comments, c.postId ≠ p.id)
    ∧ (∀ kv : String × Comment, kv ∈ s.comments → kv.2.postId ≠ p.id →
        kv ∈ ((deletePost caller s p.id).2).comments) := by
  have hstate : deletePost caller s p.id =
      (.ok p, { posts := AList.remove p.id s.posts,
                comments := removeMatching p.id (AList.values s.comments) s.comments }) := by
    simp [deletePost, hget, hown]
  refine ⟨by rw [hstate], ?_, ?_, ?_⟩
  · rw [hstate]
    exact AList.get_remove_self hwf.1.2
  · rw [hstate]
    intro c hc
    simp only [AList.values] at hc
    obtain ⟨q, hq, rfl⟩ := List.mem_map.mp hc
    exact removeMatching_purges p.id (AList.values s.comments) s.comments
      hwf.2.1 hwf.2.2 (fun kv hkv _ => List.mem_map.mpr ⟨kv, hkv, rfl⟩) q hq
  · rw [hstate]
    intro kv hkv hpid
    refine removeMatching_keeps p.id (AList.values s.comments) s.comments kv hkv ?_
    intro c hc hcpid he
    simp only [AList.values] at hc
    obtain ⟨kv2, hkv2, hc2⟩ := List.mem_map.mp hc
    have h1 : kv2.1 = kv.1 := by rw [hwf.2.1 kv2 hkv2, hc2, he]
    have heq := AList.eq_of_mem_of_keys_nodup hwf.2.2 hkv2 hkv h1
    rw [heq] at hc2
    apply hpid
    rw [hc2]
    exact hcpid

/-- Witness for C3 at a concrete input: bob deletes his post p2 in sB;
the comment c2 has postId p2 but was never appended to the post's own
(empty) comments sequence, and the cascade removes it anyway, while any
unrelated entry would survive. -/
theorem c3_witness :
    (sB.WF ∧ AList.get pB.id sB.posts = some pB ∧ pB.owner = "bob")
    ∧ (deletePost "bob" sB pB.id).1 = .ok pB
    ∧ AList.get pB.id ((deletePost "bob" sB pB.id).2).posts = none
    ∧ (∀ c ∈ AList.values ((deletePost "bob" sB pB.id).2).comments, c.postId ≠ pB.id)
    ∧ (∀ kv : String × Comment, kv ∈ sB.comments → kv.2.postId ≠ pB.id →
        kv ∈ ((deletePost "bob" sB pB.id).2).comments) := by
  have h := c3_deletePost_cascades "bob" sB pB (by decide) (by decide) (by decide)
  exact ⟨⟨by decide, by decide, by decide⟩, h.1, h.2.1, h.2.2.1, h.2.2.2⟩

/-- C4: whenever one of the endpoints returns an error (the NotFound and
Forbidden cases are the only errors any of them produce), the whole state
— both the post store and the comment store — is exactly what it was
before the call: validation completes before any store write, so no
record is created, mutated or removed on a failure. -/
theorem c4_error_leaves_state_unchanged (caller : String) (time : Nat) (newId : String)
    (s : State) (op : Op) (h : stepFails caller time newId s op = true) :
    stepState caller time newId s op = s := by
  cases op with
  | listAll => rfl
  | getOne id => rfl
  | listComments pid => rfl
  | create payload =>
    exfalso
    simp [stepFails, createPost, resultOk] at h
  | update id payload =>
    simp only [stepState]
    cases hg : AList.get id s.posts with
    | none => simp [updatePost, hg]
    | some post =>
      by_cases ho : post.owner ≠ caller
      · simp [updatePost, hg, ho]
      · exfalso
        simp [stepFails, updatePost, hg, ho, resultOk] at h
  | like pid =>
    simp only [stepState]
    cases hg : AList.get pid s.posts with
    | none => simp [likePost, hg]
    | some post =>
      exfalso
      simp [stepFails, likePost, hg, resultOk] at h
  | comment payload =>
    simp only [stepState]
    cases hg : AList.get payload.postId s.posts with
    | none => simp [commentOnPost, hg]
    | some post =>
      exfalso
      simp [stepFails, commentOnPost, hg, resultOk] at h
  | delComment id =>
    simp only [stepState]
    cases hg : AList.get id s.comments with
    | none => simp [deleteComment, hg]
    | some c =>
      by_cases hs : c.sender ≠ caller
      · simp [deleteComment, hg, hs]
      · exfalso
        simp [stepFails, deleteComment, hg, hs, resultOk] at h
  | delPost id =>
    simp only [stepState]
    cases hg : AList.get id s.posts with
    | none => simp [deletePost, hg]
    | some post =>
      by_cases ho : post.owner ≠ caller
      · simp [deletePost, hg, ho]
      · exfalso
        simp [stepFails, deletePost, hg, ho, resultOk] at h

/-- Witness for C4 at a concrete input: updating the absent id zz in sA
fails and leaves the state equal to sA. -/
theorem c4_witness :
    stepFails "alice" 0 "x" sA (Op.update "zz" ⟨"a", "b", "c"⟩) = true
    ∧ stepState "alice" 0 "x" sA (Op.update "zz" ⟨"a", "b", "c"⟩) = sA :=
  ⟨by decide, c4_error_leaves_state_unchanged "alice" 0 "x" sA
    (Op.update "zz" ⟨"a", "b", "c"⟩) (by decide)⟩

/-- C6: commentOnPost on an existing post succeeds and returns a comment
whose sender is the caller, whose id is the freshly generated uuid and
whose content and postId come from the payload; afterwards that id
appears exactly once in the stored post's comments sequence, the comment
record is in the comment store, and getCommentsOnPost on the post
includes the new comment — insertion and sequence append take effect
together. The freshness of the generated id (the source's uuidv4) enters
as the hypothesis that it is not already in the post's sequence. -/
theorem c6_commentOnPost_success (caller newId : String) (s : State)
    (payload : CommentPayload) (p : Post)
    (hget : AList.get payload.postId s.posts = some p)
    (hkey : p.id = payload.postId)
    (hfresh : newId ∉ p.comments) :
    ∃ c : Comment,
      (commentOnPost caller newId s payload).1 = .ok c
      ∧ c.sender = caller ∧ c.id = newId
      ∧ c.content = payload.content ∧ c.postId = payload.postId
      ∧ (∃ p2 : Post,
          AList.get payload.postId ((commentOnPost caller newId s payload).2).posts
            = some p2
          ∧ List.count newId p2.comments = 1)
      ∧ AList.get newId ((commentOnPost caller newId s payload).2).comments = some c
      ∧ (∃ cs : List Comment,
          getCommentsOnPost (commentOnPost caller newId s payload).2 payload.postId
            = .ok cs
          ∧ c ∈ cs) := by
  have hstate : commentOnPost caller newId s payload =
      (.ok ⟨newId, payload.content, caller, payload.postId⟩,
       { posts := AList.insert payload.postId
           { p with comments := p.comments ++ [newId] } s.posts,
         comments := AList.insert newId
           ⟨newId, payload.content, caller, payload.postId⟩ s.comments }) := by
    simp [commentOnPost, hget, hkey]
  refine ⟨⟨newId, payload.content, caller, payload.postId⟩,
    by rw [hstate], rfl, rfl, rfl, rfl, ?_, ?_, ?_⟩
  · refine ⟨{ p with comments := p.comments ++ [newId] }, ?_, ?_⟩
    · rw [hstate]
      exact AList.get_insert_self _ _ _
    · have hc0 : List.count newId p.comments = 0 :=
        List.count_eq_zero_of_not_mem hfresh
      simp [List.count_append, hc0]
  · rw [hstate]
    exact AList.get_insert_self _ _ _
  · rw [hstate]
    refine ⟨collectComments
      (AList.insert newId ⟨newId, payload.content, caller, payload.postId⟩ s.comments)
      (p.comments ++ [newId]), ?_, ?_⟩
    · simp [getCommentsOnPost, AList.get_insert_self]
    · exact mem_collectComments (by simp) (AList.get_insert_self _ _ _)

/-- Witness for C6 at a concrete input: carol comments on bob's post p2
in sB with the fresh uuid c9. -/
theorem c6_witness :
    (AList.get "p2" sB.posts = some pB ∧ pB.id = "p2" ∧ "c9" ∉ pB.comments)
    ∧ ∃ c : Comment,
        (commentOnPost "carol" "c9" sB ⟨"hey", "p2"⟩).1 = .ok c
        ∧ c.sender = "carol" ∧ c.id = "c9" ∧ c.content = "hey" ∧ c.postId = "p2"
        ∧ (∃ p2 : Post,
            AList.get "p2" ((commentOnPost "carol" "c9" sB ⟨"hey", "p2"⟩).2).posts
              = some p2
            ∧ List.count "c9" p2.comments = 1)
        ∧ AList.get "c9" ((commentOnPost "carol" "c9" sB ⟨"hey", "p2"⟩).2).comments
            = some c
        ∧ (∃ cs : List Comment,
            getCommentsOnPost (commentOnPost "carol" "c9" sB ⟨"hey", "p2"⟩).2 "p2"
              = .ok cs
            ∧ c ∈ cs) :=
  ⟨⟨by decide, by decide, by decide⟩,
    c6_commentOnPost_success "carol" "c9" sB ⟨"hey", "p2"⟩ pB
      (by decide) (by decide) (by decide)⟩

theorem likePost_step {s : State} {postId : String} {p : Post}
    (h : AList.get postId s.posts = some p) (hid : p.id = postId) :
    likePost s postId =
      (.ok { p with likes := p.likes + 1 },
       { s with posts := AList.insert postId { p with likes := p.likes + 1 } s.posts }) := by
  simp [likePost, h, hid]

theorem iterLike_get (postId : String) :
    ∀ (n : Nat) (s : State) (p : Post),
      AList.get postId s.posts = some p → p.id = postId →
      ∃ p2 : Post, AList.get postId ((iterLike postId n s).posts) = some p2
        ∧ p2.likes = p.likes + n ∧ p2.id = postId := by
  intro n
  induction n with
  | zero =>
    intro s p h hid
    exact ⟨p, by simpa [iterLike] using h, by simp, hid⟩
  | succ n ih =>
    intro s p h hid
    have hstep := likePost_step h hid
    have hget2 : AList.get postId ((likePost s postId).2).posts
        = some { p with likes := p.likes + 1 } := by
      rw [hstep]
      exact AList.get_insert_self postId _ s.posts
    obtain ⟨p2, hp2, hl, hid2⟩ := ih ((likePost s postId).2) _ hget2 hid
    refine ⟨p2, by simpa [iterLike] using hp2, ?_, hid2⟩
    simp only [hl]
    omega

/-- C9: likePost on an existing post increments the stored likes counter
by exactly 1, persists it and returns the updated record, with no
ownership check (the theorem holds for every caller because the code
never consults one); iterating it N times on a post whose counter is 0
leaves the stored counter at N; and likePost on a missing id fails with
the NotFound error and changes nothing. -/
theorem c9_likePost_increments (s s2 : State) (postId pid2 : String) (p : Post)
    (n : Nat)
    (h : AList.get postId s.posts = some p) (hid : p.id = postId)
    (hz : p.likes = 0)
    (h2 : AList.get pid2 s2.posts = none) :
    (likePost s postId).1 = .ok { p with likes := p.likes + 1 }
    ∧ AList.get postId ((likePost s postId).2).posts
        = some { p with likes := p.likes + 1 }
    ∧ (∃ p2 : Post, AList.get postId ((iterLike postId n s).posts) = some p2
        ∧ p2.likes = n)
    ∧ likePost s2 pid2 = (.error (postNotFoundMsg pid2), s2) := by
  have hstep := likePost_step h hid
  refine ⟨by rw [hstep], ?_, ?_, by simp [likePost, h2]⟩
  · rw [hstep]
    exact AList.get_insert_self postId _ s.posts
  · obtain ⟨p2, hp2, hl, _⟩ := iterLike_get postId n s p h hid
    exact ⟨p2, hp2, by omega⟩

/-- Witness for C9 at a concrete input: pA in sA has zero likes; three
iterated likes leave the stored counter at 3, and liking the absent id
zz fails. -/
theorem c9_witness :
    (AList.get "p1" sA.posts = some pA ∧ pA.id = "p1" ∧ pA.likes = 0
      ∧ AList.get "zz" sA.posts = none)
    ∧ (likePost sA "p1").1 = .ok { pA with likes := pA.likes + 1 }
    ∧ AList.get "p1" ((likePost sA "p1").2).posts
        = some { pA with likes := pA.likes + 1 }
    ∧ (∃ p2 : Post, AList.get "p1" ((iterLike "p1" 3 sA).posts) = some p2
        ∧ p2.likes = 3)
    ∧ likePost sA "zz" = (.error (postNotFoundMsg "zz"), sA) := by
  have h := c9_likePost_increments sA sA "p1" "zz" pA 3
    (by decide) (by decide) (by decide) (by decide)
  exact ⟨⟨by decide, by decide, by decide, by decide⟩, h.1, h.2.1, h.2.2.1, h.2.2.2⟩

theorem likes_conclusion_of_same {p p2 : Post} (h : p = p2) {b : Bool} :
    p.likes ≤ p2.likes ∧ (b = false → p2.likes = p.likes) := by
  subst h
  exact ⟨Nat.le_refl _, fun _ => rfl⟩

/-- C10: invariant I3. For every operation and every post that exists both
before and after it, the stored likes counter never decreases; moreover
every operation other than likePost leaves the counter of every surviving
post exactly unchanged, so likes is only ever incremented by the like
endpoint (and starts at 0 per createPost, proved with C8). The
hypotheses are the store well-formedness that every reachable state
enjoys and the collision-freedom of the generated id. -/
theorem c10_likes_monotone (caller : String) (time : Nat) (newId : String)
    (s : State) (op : Op) (pid : String) (p p2 : Post)
    (hwf : s.WF) (hfresh : newId ∉ AList.keys s.posts)
    (hb : AList.get pid s.posts = some p)
    (ha : AList.get pid ((stepState caller time newId s op).posts) = some p2) :
    p.likes ≤ p2.likes ∧ (op.isLike = false → p2.likes = p.likes) := by
  cases op with
  | listAll => exact likes_conclusion_of_same (get_some_unique hb ha)
  | getOne id => exact likes_conclusion_of_same (get_some_unique hb ha)
  | listComments pid2 => exact likes_conclusion_of_same (get_some_unique hb ha)
  | create payload =>
    simp only [stepState] at ha
    have hposts : ((createPost caller time newId s payload).2).posts =
        AList.insert newId
          { id := newId, title := payload.title, body := payload.body,
            image := payload.image, owner := caller, likes := 0,
            createdAt := time, updatedAt := none, comments := [] }
          s.posts := by
      simp [createPost]
    rw [hposts] at ha
    by_cases hpe : pid = newId
    · subst hpe
      rw [AList.get_eq_none hfresh] at hb
      exact absurd hb (by simp)
    · rw [AList.get_insert_ne _ _ hpe] at ha
      exact likes_conclusion_of_same (get_some_unique hb ha)
  | update id payload =>
    simp only [stepState] at ha
    cases hg : AList.get id s.posts with
    | none =>
      rw [show (updatePost caller time s id payload).2 = s by
        simp [updatePost, hg]] at ha
      exact likes_conclusion_of_same (get_some_unique hb ha)
    | some post =>
      by_cases ho : post.owner ≠ caller
      · rw [show (updatePost caller time s id payload).2 = s by
          simp [updatePost, hg, ho]] at ha
        exact likes_conclusion_of_same (get_some_unique hb ha)
      · have hpostid : post.id = id := WFStore.id_of_get hwf.1 hg
        have hposts : ((updatePost caller time s id payload).2).posts =
            AList.insert id
              { post with title := payload.title,
                          body := payload.body,
                          image := payload.image,
                          updatedAt := some time }
              s.posts := by
          simp [updatePost, hg, ho, hpostid]
        rw [hposts] at ha
        by_cases hpe : pid = id
        · subst hpe
          have hpp : post = p := get_some_unique hg hb
          rw [AList.get_insert_self] at ha
          have h2 : p2 =
              { post with title := payload.title,
                          body := payload.body,
                          image := payload.image,
                          updatedAt := some time } :=
            (Option.some_inj.mp ha).symm
          subst hpp
          subst h2
          exact ⟨Nat.le_refl _, fun _ => rfl⟩
        · rw [AList.get_insert_ne _ _ hpe] at ha
          exact likes_conclusion_of_same (get_some_unique hb ha)
  | like postId =>
    simp only [stepState] at ha
    cases hg : AList.get postId s.posts with
    | none =>
      rw [show (likePost s postId).2 = s by simp [likePost, hg]] at ha
      exact likes_conclusion_of_same (get_some_unique hb ha)
    | some post =>
      have hpostid : post.id = postId := WFStore.id_of_get hwf.1 hg
      have hposts : ((likePost s postId).2).posts =
          AList.insert postId { post with likes := post.likes + 1 } s.posts := by
        rw [likePost_step hg hpostid]
      rw [hposts] at ha
      by_cases hpe : pid = postId
      · subst hpe
        have hpp : post = p := get_some_unique hg hb
        rw [AList.get_insert_self] at ha
        have h2 : p2 = { post with likes := post.likes + 1 } :=
          (Option.some_inj.mp ha).symm
        subst hpp
        subst h2
        exact ⟨Nat.le_succ _, fun hcontra => Bool.noConfusion hcontra⟩
      · rw [AList.get_insert_ne _ _ hpe] at ha
        exact likes_conclusion_of_same (get_some_unique hb ha)
  | comment payload =>
    simp only [stepState] at ha
    cases hg : AList.get payload.postId s.posts with
    | none =>
      rw [show (commentOnPost caller newId s payload).2 = s by
        simp [commentOnPost, hg]] at ha
      exact likes_conclusion_of_same (get_some_unique hb ha)
    | some post =>
      have hpostid : post.id = payload.postId := WFStore.id_of_get hwf.1 hg
      have hposts : ((commentOnPost caller newId s payload).2).posts =
          AList.insert payload.postId
            { post with comments := post.comments ++ [newId] } s.posts := by
        simp [commentOnPost, hg, hpostid]
      rw [hposts] at ha
      by_cases hpe : pid = payload.postId
      · subst hpe
        have hpp : post = p := get_some_unique hg hb
        rw [AList.get_insert_self] at ha
        have h2 : p2 = { post with comments := post.comments ++ [newId] } :=
          (Option.some_inj.mp ha).symm
        subst hpp
        subst h2
        exact ⟨Nat.le_refl _, fun _ => rfl⟩
      · rw [AList.get_insert_ne _ _ hpe] at ha
        exact likes_conclusion_of_same (get_some_unique hb ha)
  | delComment id =>
    simp only [stepState] at ha
    rw [deleteComment_posts_frame caller s id] at ha
    exact likes_conclusion_of_same (get_some_unique hb ha)
  | delPost id =>
    simp only [stepState] at ha
    cases hg : AList.get id s.posts with
    | none =>
      rw [show (deletePost caller s id).2 = s by simp [deletePost, hg]] at ha
      exact likes_conclusion_of_same (get_some_unique hb ha)
    | some post =>
      by_cases ho : post.owner ≠ caller
      · rw [show (deletePost caller s id).2 = s by simp [deletePost, hg, ho]] at ha
        exact likes_conclusion_of_same (get_some_unique hb ha)
      · have hposts : ((deletePost caller s id).2).posts =
            AList.remove id s.posts := by
          simp [deletePost, hg, ho]
        rw [hposts] at ha
        by_cases hpe : pid = id
        · subst hpe
          rw [AList.get_remove_self hwf.1.2] at ha
          exact absurd ha (by simp)
        · rw [AList.get_remove_ne _ hpe] at ha
          exact likes_conclusion_of_same (get_some_unique hb ha)

/-- Witness for C10 at a concrete input: liking pA in sA takes the
stored counter from 0 to 1, which is monotone. -/
theorem c10_witness :
    (sA.WF ∧ "fresh" ∉ AList.keys sA.posts
      ∧ AList.get "p1" sA.posts = some pA
      ∧ AList.get "p1" ((stepState "bob" 7 "fresh" sA (Op.like "p1")).posts)
          = some { pA with likes := 1 })
    ∧ pA.likes ≤ ({ pA with likes := 1 } : Post).likes
    ∧ ((Op.like "p1").isLike = false →
        ({ pA with likes := 1 } : Post).likes = pA.likes) :=
  ⟨⟨by decide, by decide, by decide, by decide⟩,
    (c10_likes_monotone "bob" 7 "fresh" sA (Op.like "p1") "p1" pA
      { pA with likes := 1 } (by decide) (by decide) (by decide) (by decide)).1,
    (c10_likes_monotone "bob" 7 "fresh" sA (Op.like "p1") "p1" pA
      { pA with likes := 1 } (by decide) (by decide) (by decide) (by decide)).2⟩

end SocialMedia
